import Mathlib

/-!
Verification of the HyperSearch cognitive search engine specification
against the repository source.

The repository ships the React presentation layer
(`frontend/src/components/SearchInterface.js`); the state transitions of
that component (modality toggling, search submission guard, search
history eviction, suggestion surfacing, mutation success/error handling)
are embedded below as pure Lean functions, translated line by line from
the JavaScript.

The backend Cognitive Search Orchestration Engine (Query Normalizer,
Result Fuser/Ranker, Suggestion Engine) is not present in the repository
source; those components are modelled from the specification text and
marked as such in their doc comments.
-/

namespace HyperSearch

/-! ## Frontend state model, from `SearchInterface.js` -/

/-- Model of the JavaScript `String.prototype.trim` on the character list:
leading and trailing whitespace characters are removed. -/
def trimChars (l : List Char) : List Char :=
  ((l.dropWhile Char.isWhitespace).reverse.dropWhile Char.isWhitespace).reverse

/-- Model of `searchQuery.trim()` in `handleSearch`. -/
def jsTrim (s : String) : String :=
  String.mk (trimChars s.data)

/-- Initial modality selection, from `useState(['text'])` (line 53). -/
def initialModalities : List String := ["text"]

/-- Initial search type, from `useState('comprehensive')` (line 52). -/
def initialSearchType : String := "comprehensive"

/-- The five modality chips rendered by the component (line 212). -/
def modalityChips : List String := ["text", "image", "audio", "video", "code"]

/-- Translation of `toggleModality` (lines 122-129):
`prev.includes(modality) ? prev.filter(m => m !== modality) : [...prev, modality]`. -/
def toggleModality (modality : String) (prev : List String) : List String :=
  if prev.contains modality then prev.filter (fun m => m != modality)
  else prev ++ [modality]

/-- A search request body as assembled by `handleSearch` (lines 94-99). -/
structure SearchRequest where
  query : String
  type : String
  modalities : List String
  filters : List (String × String)
deriving DecidableEq

/-- Translation of the `handleSearch` guard (lines 91-101):
`if (!searchQuery.trim()) return;` — the mutation is issued only when the
trimmed query is non-empty, with `filters: {}`. -/
def handleSearch (searchQuery searchType : String) (modalities : List String) :
    Option SearchRequest :=
  if jsTrim searchQuery = "" then none
  else some { query := searchQuery, type := searchType,
              modalities := modalities, filters := [] }

/-- Translation of the search button `disabled` prop (line 188):
`searchMutation.isLoading || !query.trim()`. -/
def searchButtonDisabled (isLoading : Bool) (query : String) : Bool :=
  isLoading || (jsTrim query == "")

/-- One entry of the component search history, from the object literal on
line 70: `{ query, timestamp, results: data.data.results.length }`. -/
structure HistoryEntry where
  query : String
  timestamp : Nat
  results : Nat
deriving DecidableEq

/-- Translation of the history update in `searchMutation.onSuccess`
(lines 69-72): `[{...}, ...prev.slice(0, 9)]` — the new entry is
prepended and at most the first nine previous entries are retained. -/
def appendHistory (entry : HistoryEntry) (prev : List HistoryEntry) :
    List HistoryEntry :=
  entry :: prev.take 9

/-- A single result object of the backend response (`data.data.results`). -/
structure SearchResult where
  title : String
  description : String
deriving DecidableEq

/-- The backend response body stored into `results` state (line 67). -/
structure SearchResponse where
  query : String
  results : List SearchResult
  processing_time : Nat
deriving DecidableEq

/-- The component state touched by `searchMutation` callbacks. -/
structure UIState where
  results : Option SearchResponse
  searchHistory : List HistoryEntry
deriving DecidableEq

/-- Outcome of the `/api/search` mutation: `onSuccess` or `onError`. -/
inductive SearchOutcome where
  | success (resp : SearchResponse)
  | failure (message : String)

/-- Translation of the `searchMutation` callbacks (lines 62-78):
`onSuccess` stores the response and prepends a history entry whose
`results` field is `data.data.results.length`; `onError` only logs, so
the state is returned unchanged. -/
def onSearchSettled (now : Nat) (st : UIState) : SearchOutcome → UIState
  | .success resp =>
      { results := some resp,
        searchHistory :=
          appendHistory
            { query := resp.query, timestamp := now,
              results := resp.results.length }
            st.searchHistory }
  | .failure _ => st

/-- Translation of the suggestions `useQuery` `enabled` flag (line 85):
`enabled: query.length > 2` — no suggestion request is issued for a
shorter query. -/
def suggestionsQueryEnabled (query : String) : Bool :=
  decide (2 < query.length)

/-- Translation of the suggestion rendering (line 232):
`suggestions.slice(0, 5)` — at most five suggestions are surfaced. -/
def surfacedSuggestions (suggestions : List String) : List String :=
  suggestions.take 5

/-! ## Spec-modelled backend components -/

/-- Boolean test that the first string is a leading segment of the
second, used by the modelled Suggestion Engine for history matching. -/
def strStartsWith (p s : String) : Bool :=
  s.data.take p.data.length == p.data

/-- The closed search-type enumeration of the spec data model (section 3),
matching the four `MenuItem` values of the component (lines 204-207). -/
def searchTypes : List String :=
  ["comprehensive", "quick", "detailed", "creative"]

/-- Request-level error taxonomy entry relevant to validation
(specification section 7). -/
inductive QueryError where
  | invalidQuery
deriving DecidableEq

/-- The normalized internal query of the spec data model (section 3). -/
structure Query where
  text : String
  searchType : String
  requestedModalities : List String
deriving DecidableEq

/-- Modelled from the spec: the Query Normalizer (section 4.1) is not in
the repository source. It fails with `InvalidQuery` when the text is
empty or whitespace-only after trimming or when the search type is not
in the closed enumeration, and defaults the modality selection to
`text` when none is given. -/
def normalizeQuery (raw : String) (searchType : String)
    (modalities : List String) : Except QueryError Query :=
  if jsTrim raw = "" then .error .invalidQuery
  else if searchTypes.contains searchType then
    .ok { text := jsTrim raw, searchType := searchType,
          requestedModalities :=
            if modalities.isEmpty then ["text"] else modalities }
  else .error .invalidQuery

/-- Modelled from the spec: the HTTP status of `POST /api/search`
(section 6) — `400` on `InvalidQuery`, `200` otherwise. -/
def searchEndpointStatus (raw : String) (searchType : String)
    (modalities : List String) : Nat :=
  match normalizeQuery raw searchType modalities with
  | .error _ => 400
  | .ok _ => 200

/-- Modelled from the spec: the Suggestion Engine (section 4.6) is not in
the repository source. Input below the minimum length threshold of three
characters yields the empty list; otherwise matches from the recent
session entries of the principal and from the popular-query index are
gathered, capped at five suggestions. The function is total, so a
well-formed short query never produces an error. -/
def suggest (queryText : String) (recent : List String)
    (popular : List String) : List String :=
  if queryText.length < 3 then []
  else
    ((recent.filter (strStartsWith queryText)) ++
      (popular.filter (strStartsWith queryText))).take 5

/-! ## Spec-modelled Result Fuser/Ranker -/

/-- The closed modality enumeration of the spec data model (section 3). -/
inductive Modality where
  | text
  | image
  | audio
  | video
  | code
deriving DecidableEq

/-- A candidate result as in the spec data model (section 3): produced by
an agent or the retrieval client, immutable once emitted. The source
score lies in the real unit interval; it is modelled here in thousandths
as an integer so that score comparisons are decidable. The producing
modality is attached so that the modality-priority weight of the fusion
step is determined. -/
structure Candidate where
  sourceId : String
  modality : Modality
  title : String
  content : String
  score : ℤ
deriving DecidableEq

/-- One step of whitespace canonicalization: runs of whitespace collapse
to a single space. The accumulator holds the output in reverse together
with a flag recording whether the previous character was whitespace. -/
def collapseStep (acc : List Char × Bool) (c : Char) : List Char × Bool :=
  if c.isWhitespace then
    (if acc.2 then acc else (' ' :: acc.1, true))
  else (c :: acc.1, false)

/-- Whitespace canonicalization over a character list. -/
def collapseWs (l : List Char) : List Char :=
  ((l.foldl collapseStep ([], false)).1).reverse

/-- Modelled from the spec: text normalization used by the content
fingerprint (sections 4.1 and 4.5) — lower-casing, whitespace
canonicalization and trimming. -/
def normalizeText (s : String) : String :=
  String.mk (trimChars (collapseWs (s.data.map Char.toLower)))

/-- Modelled from the spec: the content fingerprint of a candidate is
its normalized title joined with its normalized content (section 4.5,
deduplication step). -/
def fingerprint (c : Candidate) : String :=
  normalizeText c.title ++ "|" ++ normalizeText c.content

/-- Modelled from the spec: the default modality-priority weights —
text and code weighted higher than audio and video (section 4.5). -/
def modalityWeight : Modality → ℤ
  | .text => 1000
  | .code => 1000
  | .image => 500
  | .audio => 250
  | .video => 250

/-- Modelled from the spec: the combined score of a surviving candidate
is a weighted sum of its own score and its modality-priority weight
(section 4.5, step 2). -/
def combinedScore (c : Candidate) : ℤ :=
  7 * c.score + 3 * modalityWeight c.modality

/-- A candidate annotated with the arrival position of its source: the
fuser receives one batch per source and records the order in which the
sources reported. -/
abbrev Arrived : Type := ℕ × Candidate

/-- Annotates every candidate of every source batch with the arrival
position of its source and concatenates the batches. -/
def gather (batches : List (List Candidate)) : List Arrived :=
  (batches.enum.map (fun ib => ib.2.map (fun c => (ib.1, c)))).flatten

/-- One comparison of the deduplication step: position `jy` does not
displace position `ix` — either the fingerprints differ, or `jy` scores
strictly lower, or it scores equally and `ix` arrived no later. -/
def noDisplace (ix jy : ℕ × Arrived) : Bool :=
  decide (fingerprint jy.2.2 ≠ fingerprint ix.2.2) ||
  decide (jy.2.2.score < ix.2.2.score) ||
  (decide (jy.2.2.score = ix.2.2.score) && decide (ix.1 ≤ jy.1))

/-- The indexed candidate `ix` survives deduplication against the whole
indexed list: no other occurrence of its fingerprint has a strictly
higher score, nor an equal score with an earlier position. -/
def keeps (l : List (ℕ × Arrived)) (ix : ℕ × Arrived) : Bool :=
  l.all (noDisplace ix)

/-- Modelled from the spec: deduplication (section 4.5, step 1) —
candidates with an identical normalized title+content fingerprint are
collapsed, keeping the highest-scoring duplicate (the earliest-arriving
one on a score tie). -/
def dedup (l : List Arrived) : List Arrived :=
  (l.enum.filter (keeps l.enum)).map Prod.snd

/-- The ranking key (section 4.5, step 3): descending combined score
(encoded by negation), ties broken by earliest-arriving source and then
lexicographic title order. -/
def rankKey (x : Arrived) : ℤ ×ₗ (ℕ ×ₗ String) :=
  toLex (-(combinedScore x.2), toLex (x.1, x.2.title))

/-- The ranking order on annotated candidates. -/
def rankLE (x y : Arrived) : Prop :=
  rankKey x ≤ rankKey y

instance : DecidableRel rankLE :=
  fun x y => inferInstanceAs (Decidable (rankKey x ≤ rankKey y))

instance : IsTotal Arrived rankLE :=
  ⟨fun x y => le_total (rankKey x) (rankKey y)⟩

instance : IsTrans Arrived rankLE :=
  ⟨fun _ _ _ hxy hyz => le_trans hxy hyz⟩

/-- The configured maximum result count (section 4.5, step 4). -/
def maxResults : ℕ := 50

/-- Modelled from the spec: the Result Fuser/Ranker pipeline on
annotated candidates — deduplicate, sort by the ranking order, truncate
to the maximum result count. -/
def fuseRanked (batches : List (List Candidate)) : List Arrived :=
  (List.insertionSort rankLE (dedup (gather batches))).take maxResults

/-- Modelled from the spec: the `FusedResult` candidate sequence handed
to the caller (section 4.5), with the arrival annotations dropped. -/
def fuse (batches : List (List Candidate)) : List Candidate :=
  (fuseRanked batches).map Prod.snd

/-- Descending strict order on candidates by combined score, used to
state uniqueness of the fused ordering. -/
def scoreGT (c d : Candidate) : Prop :=
  combinedScore d < combinedScore c

instance : IsAntisymm Candidate scoreGT :=
  ⟨fun _ _ h1 h2 => absurd (lt_trans h1 h2) (lt_irrefl _)⟩

/-- Sample history entry used by the C6 witness. -/
def sampleEntry : HistoryEntry :=
  { query := "quantum computing", timestamp := 0, results := 4 }

/-- First candidate of the C3 counterexample: arrives from agent A with
title `b`. -/
def candTitleB : Candidate :=
  { sourceId := "agent-A", modality := .text, title := "b",
    content := "about b", score := 500 }

/-- Second candidate of the C3 counterexample: arrives from agent B with
title `a` and the same score, so the combined scores tie. -/
def candTitleA : Candidate :=
  { sourceId := "agent-B", modality := .text, title := "a",
    content := "about a", score := 500 }

/-- First candidate of the C3 amended-claim witness: distinct combined
score and fingerprint from `candLow`. -/
def candHigh : Candidate :=
  { sourceId := "agent-A", modality := .text, title := "alpha",
    content := "first", score := 900 }

/-- Second candidate of the C3 amended-claim witness. -/
def candLow : Candidate :=
  { sourceId := "retrieval", modality := .text, title := "beta",
    content := "second", score := 100 }

/-! ## Claims about the frontend state transitions -/

/-- Claim C4: the claim asserts that the modality selection is never
empty and that every edit preserves non-emptiness. The default is
`['text']`, but `toggleModality` does not preserve non-emptiness:
toggling off the only selected modality empties the list. This
counterexample exhibits the violation at the initial state. -/
theorem toggleModality_empties_initial :
    toggleModality "text" initialModalities = [] ∧ initialModalities ≠ [] := by
  constructor
  · rfl
  · intro h
    simp [initialModalities] at h

/-- Claim C4 (amended): the modality selection defaults to `['text']`
(non-empty), and `toggleModality` returns the empty list exactly when
the previous list is non-empty and contains only the toggled modality;
in every other case non-emptiness is preserved. -/
theorem toggleModality_empty_iff :
    initialModalities = ["text"] ∧
    ∀ (m : String) (prev : List String),
      (toggleModality m prev = [] ↔ prev ≠ [] ∧ ∀ x ∈ prev, x = m) := by
  refine ⟨rfl, fun m prev => ?_⟩
  unfold toggleModality
  by_cases hmem : prev.contains m = true
  · rw [if_pos hmem]
    rw [List.filter_eq_nil_iff]
    have hne : prev ≠ [] := by
      intro hnil
      rw [hnil] at hmem
      simp at hmem
    constructor
    · intro h
      exact ⟨hne, fun x hx => by simpa using h x hx⟩
    · intro h x hx
      simp [h.2 x hx]
  · rw [if_neg hmem]
    constructor
    · intro h
      exact absurd (congrArg List.length h) (by simp)
    · rintro ⟨hne, hall⟩
      exfalso
      apply hmem
      rcases prev with _ | ⟨y, ys⟩
      · exact absurd rfl hne
      · have hy : y = m := hall y (by simp)
        subst hy
        simp

/-- Claim C5: a raw query whose text is empty or whitespace-only after
trimming issues no search request from the component (`handleSearch`
returns without mutating and the search button is disabled), and the
modelled `/api/search` endpoint rejects it with `InvalidQuery`,
HTTP 400. -/
theorem emptyQuery_rejected (q ty : String) (modalities : List String)
    (h : jsTrim q = "") :
    handleSearch q ty modalities = none ∧
    searchButtonDisabled false q = true ∧
    searchEndpointStatus q ty modalities = 400 := by
  refine ⟨?_, ?_, ?_⟩
  · simp [handleSearch, h]
  · simp [searchButtonDisabled, h]
  · simp [searchEndpointStatus, normalizeQuery, h]

/-- Witness for C5 at the whitespace-only query. -/
theorem emptyQuery_rejected_witness :
    jsTrim "   " = "" ∧
    (handleSearch "   " "quick" ["text"] = none ∧
      searchButtonDisabled false "   " = true ∧
      searchEndpointStatus "   " "quick" ["text"] = 400) :=
  ⟨by decide, emptyQuery_rejected "   " "quick" ["text"] (by decide)⟩

/-- Claim C6: starting from a history of at most ten entries, appending
keeps the length at most ten, places the newest entry first, and when
the history is already at capacity the entry evicted is exactly the
oldest (last) one. -/
theorem appendHistory_capacity (e : HistoryEntry) (prev : List HistoryEntry)
    (h : prev.length ≤ 10) :
    (appendHistory e prev).length ≤ 10 ∧
    appendHistory e prev =
      e :: (if prev.length = 10 then prev.dropLast else prev) := by
  constructor
  · simp only [appendHistory, List.length_cons, List.length_take]
    omega
  · unfold appendHistory
    congr 1
    by_cases h10 : prev.length = 10
    · rw [if_pos h10, List.dropLast_eq_take, h10]
    · rw [if_neg h10]
      exact List.take_of_length_le (by omega)

/-- Witness for C6 at a history already holding ten entries. -/
theorem appendHistory_capacity_witness :
    (List.replicate 10 sampleEntry).length ≤ 10 ∧
    ((appendHistory sampleEntry (List.replicate 10 sampleEntry)).length ≤ 10 ∧
      appendHistory sampleEntry (List.replicate 10 sampleEntry) =
        sampleEntry ::
          (if (List.replicate 10 sampleEntry).length = 10
            then (List.replicate 10 sampleEntry).dropLast
            else List.replicate 10 sampleEntry)) :=
  ⟨by decide,
    appendHistory_capacity sampleEntry (List.replicate 10 sampleEntry)
      (by decide)⟩

/-- Claim C7: a well-formed partial query shorter than three characters
issues no suggestion request from the component, and the modelled
Suggestion Engine returns the empty list; being a total function, it
produces no error on such input. -/
theorem shortQuery_noSuggestions (q : String) (recent popular : List String)
    (h : q.length < 3) :
    suggestionsQueryEnabled q = false ∧ suggest q recent popular = [] := by
  constructor
  · unfold suggestionsQueryEnabled
    exact decide_eq_false (by omega)
  · simp [suggest, h]

/-- Witness for C7 at the two-character query of the spec example. -/
theorem shortQuery_noSuggestions_witness :
    "qu".length < 3 ∧
    (suggestionsQueryEnabled "qu" = false ∧
      suggest "qu" ["quantum computing"] ["quick start"] = []) :=
  ⟨by decide,
    shortQuery_noSuggestions "qu" ["quantum computing"] ["quick start"]
      (by decide)⟩

/-- Claim C8: the modelled Suggestion Engine produces at most five
suggestion strings, and the component surfaces at most five of whatever
suggestion list it holds. -/
theorem suggestions_at_most_five (q : String) (recent popular l : List String) :
    (suggest q recent popular).length ≤ 5 ∧
    (surfacedSuggestions l).length ≤ 5 := by
  constructor
  · unfold suggest
    split
    · simp
    · exact List.length_take_le 5 _
  · exact List.length_take_le 5 l

/-- Claim C9: toggling the same modality twice yields a list with
exactly the same members as the original; the first toggle removes the
modality when present and appends it otherwise, and the second toggle
reverses that change up to set equality. -/
theorem toggleModality_involutive (m x : String) (s : List String) :
    x ∈ toggleModality m (toggleModality m s) ↔ x ∈ s := by
  unfold toggleModality
  by_cases hmem : s.contains m = true
  · rw [if_pos hmem]
    have hm : m ∈ s := by simpa using hmem
    have hfc : ((s.filter (fun a => a != m)).contains m) = false := by
      by_contra hc
      rw [Bool.not_eq_false] at hc
      rw [List.contains_iff_exists_mem_beq] at hc
      obtain ⟨b, hb, hbeq⟩ := hc
      rw [List.mem_filter] at hb
      have hbm : m = b := by simpa using hbeq
      subst hbm
      simp at hb
    rw [if_neg (by simp [hfc])]
    simp only [List.mem_append, List.mem_filter, List.mem_singleton,
      bne_iff_ne, ne_eq]
    constructor
    · rintro (⟨hs, _⟩ | rfl)
      · exact hs
      · exact hm
    · intro hs
      by_cases hx : x = m
      · right
        exact hx
      · left
        exact ⟨hs, hx⟩
  · rw [if_neg hmem]
    have hm : m ∉ s := fun hc => hmem (by simp [hc])
    have hc2 : (s ++ [m]).contains m = true := by simp
    rw [if_pos hc2]
    rw [List.filter_append]
    have h1 : [m].filter (fun a => a != m) = [] := by simp
    rw [h1, List.append_nil]
    rw [List.mem_filter]
    constructor
    · exact fun hp => hp.1
    · intro hs
      refine ⟨hs, ?_⟩
      rw [bne_iff_ne]
      intro hxm
      subst hxm
      exact hm hs

/-- Claim C10: when the search mutation fails the component state —
displayed results and history — is unchanged; when it succeeds, a
history entry is prepended whose `results` count equals the length of
the returned result list. -/
theorem onSearchSettled_error_unchanged (now : Nat) (st : UIState) :
    (∀ msg, onSearchSettled now st (.failure msg) = st) ∧
    (∀ resp, (onSearchSettled now st (.success resp)).searchHistory =
        { query := resp.query, timestamp := now,
          results := resp.results.length } :: st.searchHistory.take 9) :=
  ⟨fun _ => rfl, fun _ => rfl⟩

/-! ## Claims about the Result Fuser/Ranker -/

/-- Dropping the arrival annotations from the gathered candidates
recovers the concatenation of the source batches. -/
theorem gather_map_snd (batches : List (List Candidate)) :
    (gather batches).map Prod.snd = batches.flatten := by
  unfold gather
  rw [List.map_flatten, List.map_map]
  have hcomp :
      (List.map (Prod.snd (α := ℕ) (β := Candidate)) ∘
        fun ib : ℕ × List Candidate => ib.2.map (fun c => (ib.1, c))) =
      Prod.snd := by
    funext ib
    simp [List.map_map, Function.comp]
  rw [hcomp, List.enum_map_snd]

/-- The positions attached by `List.enum` are strictly increasing. -/
theorem enum_pairwise_lt {α : Type} (l : List α) :
    l.enum.Pairwise (fun a b => a.1 < b.1) := by
  have h := List.pairwise_lt_range l.length
  rw [← List.enum_map_fst l] at h
  exact List.pairwise_map.mp h

/-- Unfolding of the deduplication survival test: a surviving indexed
candidate dominates every occurrence of its fingerprint. -/
theorem keeps_spec {l : List (ℕ × Arrived)} {ix : ℕ × Arrived}
    (hk : keeps l ix = true) :
    ∀ jy ∈ l, fingerprint jy.2.2 = fingerprint ix.2.2 →
      jy.2.2.score < ix.2.2.score ∨
        (jy.2.2.score = ix.2.2.score ∧ ix.1 ≤ jy.1) := by
  intro jy hjy hfp
  unfold keeps at hk
  have h := List.all_eq_true.mp hk jy hjy
  unfold noDisplace at h
  simp only [Bool.or_eq_true, Bool.and_eq_true, decide_eq_true_eq] at h
  rcases h with (h | h) | h
  · exact absurd hfp h
  · exact Or.inl h
  · exact Or.inr h

/-- No two entries of a deduplicated list share a fingerprint. -/
theorem dedup_pairwise_fp (l : List Arrived) :
    (dedup l).Pairwise (fun x y => fingerprint x.2 ≠ fingerprint y.2) := by
  unfold dedup
  rw [List.pairwise_map]
  have hplt : (l.enum.filter (keeps l.enum)).Pairwise (fun a b => a.1 < b.1) :=
    (enum_pairwise_lt l).filter _
  refine List.Pairwise.imp_of_mem ?_ hplt
  intro a b ha hb hlt hfp
  obtain ⟨hamem, hakeep⟩ := List.mem_filter.mp ha
  obtain ⟨hbmem, hbkeep⟩ := List.mem_filter.mp hb
  have h1 := keeps_spec hakeep b hbmem hfp.symm
  have h2 := keeps_spec hbkeep a hamem hfp
  rcases h1 with h1 | h1 <;> rcases h2 with h2 | h2
  · exact absurd (lt_trans h1 h2) (lt_irrefl _)
  · rw [h2.1] at h1
    exact absurd h1 (lt_irrefl _)
  · rw [h1.1] at h2
    exact absurd h2 (lt_irrefl _)
  · omega

/-- Every deduplicated entry comes from the input list. -/
theorem dedup_subset {l : List Arrived} {x : Arrived} (hx : x ∈ dedup l) :
    x ∈ l := by
  unfold dedup at hx
  obtain ⟨ix, hix, rfl⟩ := List.mem_map.mp hx
  have hmem := (List.mem_filter.mp hix).1
  have h2 : ix.2 ∈ l.enum.map Prod.snd := List.mem_map_of_mem _ hmem
  rwa [List.enum_map_snd] at h2

/-- A deduplicated entry scores at least as high as every input
occurrence of its fingerprint. -/
theorem dedup_max {l : List Arrived} {x : Arrived} (hx : x ∈ dedup l) :
    ∀ d ∈ l, fingerprint d.2 = fingerprint x.2 → d.2.score ≤ x.2.score := by
  unfold dedup at hx
  obtain ⟨ix, hix, rfl⟩ := List.mem_map.mp hx
  obtain ⟨hmem, hkeep⟩ := List.mem_filter.mp hix
  intro d hd hfp
  have hd2 : d ∈ l.enum.map Prod.snd := by rwa [List.enum_map_snd]
  obtain ⟨jd, hjd, rfl⟩ := List.mem_map.mp hd2
  rcases keeps_spec hkeep jd hjd hfp with h | h
  · exact le_of_lt h
  · exact le_of_eq h.1

/-- The ranking order forces non-increasing combined scores. -/
theorem rankLE_combined {x y : Arrived} (h : rankLE x y) :
    combinedScore y.2 ≤ combinedScore x.2 := by
  unfold rankLE rankKey at h
  rw [Prod.Lex.le_iff] at h
  rcases h with h | h
  · simp only at h
    omega
  · have h1 := h.1
    simp only at h1
    omega

/-- The ranked fusion output is sorted by the ranking order. -/
theorem fuseRanked_sorted (batches : List (List Candidate)) :
    (fuseRanked batches).Pairwise rankLE := by
  unfold fuseRanked
  exact List.Pairwise.sublist (List.take_sublist _ _)
    (List.sorted_insertionSort rankLE _)

/-- Claim C1: for every family of candidate batches, the fused response
has at most the configured maximum number of results, the ranked output
is sorted by the ranking order (non-increasing combined score, ties by
earliest-arriving source then lexicographic title), and in particular
the candidate sequence has non-increasing combined scores. -/
theorem fuse_bounded_sorted (batches : List (List Candidate)) :
    (fuse batches).length ≤ maxResults ∧
    (fuseRanked batches).Sorted rankLE ∧
    (fuse batches).Pairwise (fun a b => combinedScore b ≤ combinedScore a) := by
  refine ⟨?_, fuseRanked_sorted batches, ?_⟩
  · unfold fuse fuseRanked
    rw [List.length_map]
    exact List.length_take_le _ _
  · unfold fuse
    rw [List.pairwise_map]
    exact List.Pairwise.imp (fun h => rankLE_combined h) (fuseRanked_sorted batches)

/-- Claim C2: no two entries of a fused result share a normalized
title+content fingerprint; every fused entry is one of the input
candidates and scores at least as high as every input candidate with
its fingerprint, so the highest-scoring duplicate is the one kept. -/
theorem fuse_deduplicated (batches : List (List Candidate)) :
    (fuse batches).Pairwise (fun a b => fingerprint a ≠ fingerprint b) ∧
    ∀ c ∈ fuse batches, c ∈ batches.flatten ∧
      ∀ d ∈ batches.flatten, fingerprint d = fingerprint c →
        d.score ≤ c.score := by
  have hperm :
      List.Perm (List.insertionSort rankLE (dedup (gather batches)))
        (dedup (gather batches)) :=
    List.perm_insertionSort rankLE _
  constructor
  · unfold fuse
    rw [List.pairwise_map]
    apply List.Pairwise.sublist (List.take_sublist _ _)
    exact (hperm.pairwise_iff (fun h q => h q.symm)).mpr (dedup_pairwise_fp _)
  · intro c hc
    unfold fuse at hc
    obtain ⟨x, hx, rfl⟩ := List.mem_map.mp hc
    have hxs : x ∈ List.insertionSort rankLE (dedup (gather batches)) :=
      (List.take_sublist _ _).mem hx
    have hxd : x ∈ dedup (gather batches) := hperm.mem_iff.mp hxs
    constructor
    · have := List.mem_map_of_mem Prod.snd (dedup_subset hxd)
      rwa [gather_map_snd] at this
    · intro d hd hfp
      rw [← gather_map_snd] at hd
      obtain ⟨ad, had, rfl⟩ := List.mem_map.mp hd
      exact dedup_max hxd ad had hfp

/-- Claim C3: the claim asserts that fusion yields an identical ordering
regardless of the order in which the sources arrive. This fails: the
tie-break prefers the earliest-arriving source, so two candidates with
tied combined scores from different sources swap places when the two
source batches arrive in the opposite order. -/
theorem fuse_arrival_order_dependent :
    List.Perm [[candTitleB], [candTitleA]] [[candTitleA], [candTitleB]] ∧
    fuse [[candTitleB], [candTitleA]] ≠ fuse [[candTitleA], [candTitleB]] :=
  ⟨by decide, by decide⟩

/-- When all fingerprints are pairwise distinct, deduplication keeps
every candidate in place. -/
theorem dedup_eq_self {l : List Arrived}
    (hP : l.Pairwise (fun x y => fingerprint x.2 ≠ fingerprint y.2)) :
    dedup l = l := by
  unfold dedup
  have hPe : l.enum.Pairwise
      (fun a b => fingerprint a.2.2 ≠ fingerprint b.2.2) := by
    have h2 : (l.enum.map Prod.snd).Pairwise
        (fun x y => fingerprint x.2 ≠ fingerprint y.2) := by
      rw [List.enum_map_snd]
      exact hP
    rw [List.pairwise_map] at h2
    exact h2
  have hall : ∀ ix ∈ l.enum, keeps l.enum ix = true := by
    intro ix hix
    unfold keeps
    rw [List.all_eq_true]
    intro jy hjy
    unfold noDisplace
    by_cases hfp : fingerprint jy.2.2 = fingerprint ix.2.2
    · have hEq : ix = jy := by
        by_contra hne
        have hsym : Symmetric
            (fun a b : ℕ × Arrived =>
              fingerprint a.2.2 ≠ fingerprint b.2.2) :=
          fun _ _ h q => h q.symm
        exact List.Pairwise.forall hsym hPe hix hjy hne hfp.symm
      rw [← hEq]
      simp
    · simp [hfp]
  rw [List.filter_eq_self.mpr hall, List.enum_map_snd]

/-- Claim C3 (amended): fusion yields an identical ordering for any two
arrival orders of the same source batches provided no two distinct
candidates tie on combined score and no two share a fingerprint; with
ties across sources the earliest-arrival tie-break makes the ordering
arrival-dependent, as the counterexample shows. -/
theorem fuse_deterministic_of_distinct (b1 b2 : List (List Candidate))
    (hperm : List.Perm b1 b2)
    (hscores : b1.flatten.Pairwise
      (fun c d => combinedScore c ≠ combinedScore d))
    (hfps : b1.flatten.Pairwise (fun c d => fingerprint c ≠ fingerprint d)) :
    fuse b1 = fuse b2 := by
  have hfl : List.Perm b1.flatten b2.flatten := hperm.flatten
  have hscores2 : b2.flatten.Pairwise
      (fun c d => combinedScore c ≠ combinedScore d) :=
    (hfl.pairwise_iff (fun h q => h q.symm)).mp hscores
  have hfps2 : b2.flatten.Pairwise
      (fun c d => fingerprint c ≠ fingerprint d) :=
    (hfl.pairwise_iff (fun h q => h q.symm)).mp hfps
  have hg1 : (gather b1).Pairwise
      (fun x y => fingerprint x.2 ≠ fingerprint y.2) := by
    have h := hfps
    rw [← gather_map_snd, List.pairwise_map] at h
    exact h
  have hg2 : (gather b2).Pairwise
      (fun x y => fingerprint x.2 ≠ fingerprint y.2) := by
    have h := hfps2
    rw [← gather_map_snd, List.pairwise_map] at h
    exact h
  have hp1 : List.Perm ((List.insertionSort rankLE (gather b1)).map Prod.snd)
      b1.flatten := by
    have h := (List.perm_insertionSort rankLE (gather b1)).map Prod.snd
    rwa [gather_map_snd] at h
  have hp2 : List.Perm ((List.insertionSort rankLE (gather b2)).map Prod.snd)
      b2.flatten := by
    have h := (List.perm_insertionSort rankLE (gather b2)).map Prod.snd
    rwa [gather_map_snd] at h
  have hp12 : List.Perm ((List.insertionSort rankLE (gather b1)).map Prod.snd)
      ((List.insertionSort rankLE (gather b2)).map Prod.snd) :=
    hp1.trans (hfl.trans hp2.symm)
  have hsorted : ∀ (b : List (List Candidate)),
      b.flatten.Pairwise (fun c d => combinedScore c ≠ combinedScore d) →
      List.Perm ((List.insertionSort rankLE (gather b)).map Prod.snd)
        b.flatten →
      ((List.insertionSort rankLE (gather b)).map Prod.snd).Pairwise
        scoreGT := by
    intro b hb hpb
    have hle : ((List.insertionSort rankLE (gather b)).map Prod.snd).Pairwise
        (fun a c => combinedScore c ≤ combinedScore a) := by
      rw [List.pairwise_map]
      exact List.Pairwise.imp (fun h => rankLE_combined h)
        (List.sorted_insertionSort rankLE _)
    have hne : ((List.insertionSort rankLE (gather b)).map Prod.snd).Pairwise
        (fun a c => combinedScore a ≠ combinedScore c) :=
      (hpb.pairwise_iff (fun h q => h q.symm)).mpr hb
    exact List.Pairwise.imp
      (fun h => lt_of_le_of_ne h.1 (fun q => h.2 q.symm)) (hle.and hne)
  have hmap : (List.insertionSort rankLE (gather b1)).map Prod.snd =
      (List.insertionSort rankLE (gather b2)).map Prod.snd :=
    List.eq_of_perm_of_sorted hp12 (hsorted b1 hscores hp1)
      (hsorted b2 hscores2 hp2)
  unfold fuse fuseRanked
  rw [dedup_eq_self hg1, dedup_eq_self hg2, List.map_take, List.map_take,
    hmap]

/-- Witness for the amended C3 at two batches with distinct combined
scores and fingerprints arriving in opposite orders. -/
theorem fuse_deterministic_of_distinct_witness :
    List.Perm [[candHigh], [candLow]] [[candLow], [candHigh]] ∧
    ([[candHigh], [candLow]].flatten).Pairwise
      (fun c d => combinedScore c ≠ combinedScore d) ∧
    ([[candHigh], [candLow]].flatten).Pairwise
      (fun c d => fingerprint c ≠ fingerprint d) ∧
    fuse [[candHigh], [candLow]] = fuse [[candLow], [candHigh]] :=
  ⟨by decide, by decide, by decide,
    fuse_deterministic_of_distinct [[candHigh], [candLow]]
      [[candLow], [candHigh]] (by decide) (by decide) (by decide)⟩
